import Mathlib

/-!
# Verification of the zod parse-utility core (`deno/lib/helpers/parseUtil.ts`,
`deno/lib/errors.ts`)

A shallow embedding of the diagnostic core of the validator:

* the tri-state parse status (`"valid" | "dirty" | "aborted"`) with its
  `dirty()` / `abort()` transitions,
* the merge algorithms `ParseStatus.mergeArray`, `ParseStatus.mergeObjectSync`
  and `ParseStatus.mergeObjectAsync`,
* the issue builder `makeIssue` and the issue-emission entry point
  `addIssueToContext`,
* the result predicates `isAborted`, `isDirty`, `isValid`.

JavaScript values that flow through the untyped (`any`) positions are
modelled by the inductive type `Val`; the mutable `ParseStatus` object is
modelled by explicit state passing (every merge returns the final status
value next to its result); promises are modelled by a constructor holding
the value the promise resolves to, so `await` is a projection.
-/

namespace ZodParseUtil

/-- The three values of `ParseStatus.value` in `parseUtil.ts`
(`"aborted" | "dirty" | "valid"`). -/
inductive Status where
  | valid
  | dirty
  | aborted
deriving DecidableEq, Repr

/-- Numeric rank of a status along the documented order
`valid < dirty < aborted`. -/
def Status.rank : Status → Nat
  | .valid => 0
  | .dirty => 1
  | .aborted => 2

/-- The total order `valid < dirty < aborted` on statuses (reflexive form). -/
def statusLe (a b : Status) : Prop := a.rank ≤ b.rank

instance (a b : Status) : Decidable (statusLe a b) := by
  unfold statusLe; infer_instance

/-- A JavaScript value as it appears in the untyped (`any`) positions of
`parseUtil.ts`: `undefined`, strings, numbers (the integral ones the claims
exercise), arrays and plain objects (assignment-ordered field lists with
string property keys). -/
inductive Val where
  | undef : Val
  | str : String → Val
  | num : Int → Val
  | arr : List Val → Val
  | obj : List (String × Val) → Val

/-- The test `v === "__proto__"`: JavaScript strict equality of a value against the
literal string `"__proto__"` (only a string can be strictly equal to it). -/
def Val.isProtoKey : Val → Bool
  | .str s => s == "__proto__"
  | _ => false

/-- The test `typeof v === "undefined"`. -/
def Val.isUndef : Val → Bool
  | .undef => true
  | _ => false

/-- JavaScript property-key coercion `String(v)` used by the assignment
`finalObject[key.value] = ...`: strings stay themselves, numbers print in
decimal, `undefined` prints as `"undefined"`, arrays join their elements
with `","` (an `undefined` element contributing the empty string) and plain
objects print as `"[object Object]"`. -/
def Val.toKeyString : Val → String
  | .undef => "undefined"
  | .str s => s
  | .num n => toString n
  | .obj _ => "[object Object]"
  | .arr es =>
      String.intercalate "," (es.attach.map fun v =>
        if v.1.isUndef then "" else v.1.toKeyString)
decreasing_by
  have := List.sizeOf_lt_of_mem v.2
  simp only [Val.arr.sizeOf_spec]
  omega

/-- A synchronous parse result (`SyncParseReturnType`): a status together
with the value read off the result object's `value` property.  `INVALID`
carries no `value` property, so reading it yields `undefined`; `OK` and
`DIRTY` store their payload. -/
structure SyncParseReturn where
  status : Status
  value : Val

/-- The constant `INVALID`: the frozen `{ status: "aborted" }` singleton (its absent
`value` property reads as `undefined`). -/
def INVALID : SyncParseReturn := ⟨.aborted, .undef⟩

/-- The constructor `DIRTY(value)`: `{ status: "dirty", value }`. -/
def DIRTY (v : Val) : SyncParseReturn := ⟨.dirty, v⟩

/-- The constructor `OK(value)`: `{ status: "valid", value }`. -/
def OK (v : Val) : SyncParseReturn := ⟨.valid, v⟩

/-- A `ParseReturnType`: either a synchronous result or a promise; the
promise constructor records the synchronous result it resolves to, so
`await` is the projection `resolve`. -/
inductive ParseReturn where
  | sync : SyncParseReturn → ParseReturn
  | promise : SyncParseReturn → ParseReturn

/-- Awaiting, `await x`, on a `ParseReturnType`: a plain value awaits to itself, a
promise to the result it resolves to. -/
def ParseReturn.resolve : ParseReturn → SyncParseReturn
  | .sync r => r
  | .promise r => r

/-- The predicate `isAborted`: `(x as any).status === "aborted"` (a promise has no
`status` property, so the read yields `undefined` and the comparison is
false). -/
def isAborted : ParseReturn → Bool
  | .sync r => r.status == .aborted
  | .promise _ => false

/-- The predicate `isDirty`: `(x as any).status === "dirty"`. -/
def isDirty : ParseReturn → Bool
  | .sync r => r.status == .dirty
  | .promise _ => false

/-- The predicate `isValid`: `(x as any).status === "valid"`. -/
def isValid : ParseReturn → Bool
  | .sync r => r.status == .valid
  | .promise _ => false

namespace ParseStatus

/-- The method `ParseStatus.dirty()`: `if (this.value === "valid") this.value = "dirty"`,
as a function from the old `value` to the new one. -/
def dirtyStep (s : Status) : Status :=
  if s = .valid then .dirty else s

/-- The method `ParseStatus.abort()`: `if (this.value !== "aborted") this.value = "aborted"`,
as a function from the old `value` to the new one. -/
def abortStep (s : Status) : Status :=
  if s ≠ .aborted then .aborted else s

/-- One step of the loop body's status updates: apply `status.dirty()` when
the inspected result status is `"dirty"`. -/
def dirtyUpd (s : Status) (rs : Status) : Status :=
  if rs = .dirty then dirtyStep s else s

/-- The loop of `ParseStatus.mergeArray`: walks the results, returning
`INVALID` at the first `"aborted"` element, marking the running status dirty
at `"dirty"` elements and pushing every visited element's value; at the end
builds `{ status: status.value, value: arrayValue }`.  The final mutable
`status.value` is returned next to the result. -/
def mergeArrayGo (status : Status) (acc : List Val) :
    List SyncParseReturn → Status × SyncParseReturn
  | [] => (status, ⟨status, .arr acc⟩)
  | s :: rest =>
      if s.status = .aborted then (status, INVALID)
      else mergeArrayGo (dirtyUpd status s.status) (acc ++ [s.value]) rest

/-- The function `ParseStatus.mergeArray(status, results)`, with the mutable
`ParseStatus` made explicit: returns the final `status.value` together with
the returned result object. -/
def mergeArray (status : Status) (results : List SyncParseReturn) :
    Status × SyncParseReturn :=
  mergeArrayGo status [] results

/-- A pair passed to `ParseStatus.mergeObjectSync`: a key result, a value
result and the optional `alwaysSet` flag (absent = `false`). -/
structure ObjectPair where
  key : SyncParseReturn
  value : SyncParseReturn
  alwaysSet : Bool := false

/-- Creation or overwrite of an own property on the assignment-ordered
field list: overwrite the existing binding in place if the key is present,
otherwise append. -/
def insertKey (m : List (String × Val)) (k : String) (v : Val) :
    List (String × Val) :=
  if m.any (fun p => p.1 == k) then
    m.map (fun p => if p.1 == k then (k, v) else p)
  else m ++ [(k, v)]

/-- The assignment `finalObject[k] = v` on a plain object, acting on its
own-property list: when the coerced property key is `"__proto__"`, the
assignment invokes the inherited `Object.prototype.__proto__` accessor
setter and creates no own property (it mutates the prototype for object
values and is a no-op otherwise — neither shows up among the own
properties that make up the returned mapping); for every other key it
creates or overwrites the own entry. -/
def setKey (m : List (String × Val)) (k : String) (v : Val) :
    List (String × Val) :=
  if k == "__proto__" then m else insertKey m k v

/-- The loop of `ParseStatus.mergeObjectSync`: for each pair, return
`INVALID` if the key or the value is `"aborted"` (both checks precede the
dirty marking), mark the running status dirty for a `"dirty"` key and then
for a `"dirty"` value, and assign `finalObject[key.value] = value.value`
exactly when `key.value !== "__proto__"` and
(`typeof value.value !== "undefined"` or `pair.alwaysSet`).  At the end
builds `{ status: status.value, value: finalObject }`. -/
def mergeObjectSyncGo (status : Status) (acc : List (String × Val)) :
    List ObjectPair → Status × SyncParseReturn
  | [] => (status, ⟨status, .obj acc⟩)
  | p :: rest =>
      if p.key.status = .aborted then (status, INVALID)
      else if p.value.status = .aborted then (status, INVALID)
      else
        let status' := dirtyUpd (dirtyUpd status p.key.status) p.value.status
        let acc' :=
          if !p.key.value.isProtoKey && (!p.value.value.isUndef || p.alwaysSet)
          then setKey acc p.key.value.toKeyString p.value.value
          else acc
        mergeObjectSyncGo status' acc' rest

/-- The function `ParseStatus.mergeObjectSync(status, pairs)`, with the mutable
`ParseStatus` made explicit: returns the final `status.value` together with
the returned result object. -/
def mergeObjectSync (status : Status) (pairs : List ObjectPair) :
    Status × SyncParseReturn :=
  mergeObjectSyncGo status [] pairs

/-- A pair passed to `ParseStatus.mergeObjectAsync`: a possibly-asynchronous
key result and value result (no `alwaysSet` field in this signature). -/
structure AsyncObjectPair where
  key : ParseReturn
  value : ParseReturn

/-- The loop of `ParseStatus.mergeObjectAsync`: awaits each pair's key and
then its value, one pair at a time in the given order, pushing the resolved
`{ key, value }` pair. -/
def mergeObjectAsyncGo (acc : List ObjectPair) :
    List AsyncObjectPair → List ObjectPair
  | [] => acc
  | p :: rest =>
      mergeObjectAsyncGo (acc ++ [⟨p.key.resolve, p.value.resolve, false⟩]) rest

/-- The function `ParseStatus.mergeObjectAsync(status, pairs)`: awaits every pair's key
and value in order, then delegates to `ParseStatus.mergeObjectSync`. -/
def mergeObjectAsync (status : Status) (pairs : List AsyncObjectPair) :
    Status × SyncParseReturn :=
  mergeObjectSync status (mergeObjectAsyncGo [] pairs)

end ParseStatus

/-- A path component (`ParsePathComponent = string | number`). -/
inductive PathComp where
  | str : String → PathComp
  | num : Int → PathComp
deriving DecidableEq, Repr

/-- The fields of `IssueData` the issue pipeline reads: the kind
discriminator `code`, the optional relative `path` and the optional explicit
`message`.  (Kind-specific payload fields ride along unchanged through the
object spreads and are not modelled individually.) -/
structure IssueData where
  code : String
  path : Option (List PathComp) := none
  message : Option String := none

/-- The second argument a `ZodErrorMap` receives:
`{ data, defaultError }`. -/
structure ErrorMapCtx where
  data : Val
  defaultError : String

/-- The behaviour of a `ZodErrorMap`: from the full issue and the context it
produces `{ message }`, modelled as the message string itself. -/
def ErrorMapFn : Type := IssueData → ErrorMapCtx → String

/-- A `ZodErrorMap` as a JavaScript function object: reference identity
(what `===` compares) is modelled by `id`, behaviour by `fn`.  Distinct
references may have the same behaviour and still be `!==`. -/
structure ErrorMapRef where
  id : Nat
  fn : ErrorMapFn

/-- A `ZodIssue` as the pipeline constructs it: the spread issue data with
the full path and the resolved message. -/
structure ZodIssue where
  code : String
  path : List PathComp
  message : String

/-- The function `makeIssue(params)`: computes the full path by appending
`issueData.path` (when present) to the ambient path; if `issueData.message`
is present returns it verbatim; otherwise filters the error maps for
presence (`.filter((m) => !!m)`), reverses them, and folds
`errorMessage = map(fullIssue, { data, defaultError: errorMessage })`
starting from `""`. -/
def makeIssue (data : Val) (path : List PathComp)
    (errorMaps : List (Option ErrorMapRef)) (issueData : IssueData) :
    ZodIssue :=
  let fullPath := path ++ (issueData.path.getD [])
  let fullIssue : IssueData := { issueData with path := some fullPath }
  match issueData.message with
  | some m => { code := issueData.code, path := fullPath, message := m }
  | none =>
      let maps := (errorMaps.filterMap id).reverse
      let errorMessage :=
        maps.foldl (fun em map => map.fn fullIssue ⟨data, em⟩) ""
      { code := issueData.code, path := fullPath, message := errorMessage }

/-- Modelled from the spec: the default locale error map exported by
`locales/en.ts` (not part of these sources), treated as an opaque
message-producing function; only its reference identity and its being
present matter to the code under verification.  It is given the fixed
reference id `0`. -/
def defaultErrorMap : ErrorMapRef :=
  ⟨0, fun _ ctx => ctx.defaultError⟩

/-- The parts of a `ParseContext` the issue pipeline reads: the shared
issue list `common.issues`, the optional `common.contextualErrorMap`, the
shared `common.async` flag, the ambient `path`, the optional
`schemaErrorMap` and the input `data`.  (The `parent` back-reference and
`parsedType` are never read by the functions under verification.) -/
structure ParseContext where
  issues : List ZodIssue
  contextualErrorMap : Option ErrorMapRef
  async : Bool
  path : List PathComp
  schemaErrorMap : Option ErrorMapRef
  data : Val

/-- The error-map list `addIssueToContext` builds, after its
`.filter((x) => !!x)`: contextual map, schema map, the global override map,
and the global default map unless the override map `===` the default map. -/
def priorityMaps (overrideMap : ErrorMapRef) (ctx : ParseContext) :
    List ErrorMapRef :=
  ([ctx.contextualErrorMap, ctx.schemaErrorMap, some overrideMap,
    if overrideMap.id = defaultErrorMap.id then none else some defaultErrorMap
   ]).filterMap id

/-- The function `addIssueToContext(ctx, issueData)`, with the process-wide mutable
registry made explicit: `overrideMap` is the value `getErrorMap()` returns
(the current `overrideErrorMap` of `errors.ts`).  Builds the filtered
error-map list, constructs the issue via `makeIssue` and pushes it onto
`ctx.common.issues`. -/
def addIssueToContext (overrideMap : ErrorMapRef) (ctx : ParseContext)
    (issueData : IssueData) : ParseContext :=
  let issue := makeIssue ctx.data ctx.path
    ((priorityMaps overrideMap ctx).map some) issueData
  { ctx with issues := ctx.issues ++ [issue] }

/-- The running status after `mergeArray` has visited a list of results,
none of which aborted: a fold of the dirty-marking over their statuses. -/
def arrStatusFold (s : Status) (rs : List SyncParseReturn) : Status :=
  rs.foldl (fun st r => ParseStatus.dirtyUpd st r.status) s

/-- A pair neither of whose results aborted. -/
def pairNotAborted (p : ParseStatus.ObjectPair) : Prop :=
  p.key.status ≠ .aborted ∧ p.value.status ≠ .aborted

instance (p : ParseStatus.ObjectPair) : Decidable (pairNotAborted p) := by
  unfold pairNotAborted; infer_instance

/-- The running status after `mergeObjectSync` has visited a list of pairs,
none of which aborted: the dirty-marking folded over key then value status
of every pair, whether or not the pair contributes to the output. -/
def pairStatusFold (s : Status) (ps : List ParseStatus.ObjectPair) : Status :=
  ps.foldl (fun st p =>
    ParseStatus.dirtyUpd (ParseStatus.dirtyUpd st p.key.status) p.value.status) s

/-- The condition under which `mergeObjectSync` attempts the assignment
into `finalObject` — the source's guard: the key value is not strictly
equal to `"__proto__"` and the value is defined or `alwaysSet` is set. -/
def includePair (p : ParseStatus.ObjectPair) : Bool :=
  !p.key.value.isProtoKey && (!p.value.value.isUndef || p.alwaysSet)

/-- The condition under which a pair actually lands in the output
own-property mapping: the source's assignment guard passes and,
additionally, the key's coerced property key is not `"__proto__"` (a
non-string key such as the array `["__proto__"]` passes the strict-equality
guard but its assignment is swallowed by the inherited `__proto__`
setter). -/
def contributesPair (p : ParseStatus.ObjectPair) : Bool :=
  includePair p && p.key.value.toKeyString != "__proto__"

/-- The object accumulated by `mergeObjectSync` over a list of pairs it has
visited without aborting: `finalObject[key.value] = value.value` for each
pair in order, each assignment guarded by `includePair`. -/
def objAssignFold (acc : List (String × Val))
    (ps : List ParseStatus.ObjectPair) : List (String × Val) :=
  ps.foldl (fun m p =>
    if includePair p
    then ParseStatus.setKey m p.key.value.toKeyString p.value.value
    else m) acc

/-- The message-resolution chain as the spec describes it: the present
error maps, in their supplied priority order, where the first map is
invoked last and each map receives as `defaultError` the message the rest
of the chain produced (the empty chain produces `""`). -/
def resolveChainSpec : List ErrorMapRef → IssueData → Val → String
  | [], _, _ => ""
  | m :: rest, issue, data =>
      m.fn issue ⟨data, resolveChainSpec rest issue data⟩

/-! ## Helper lemmas on the status order and the merge loops -/

theorem statusLe_refl (s : Status) : statusLe s s := Nat.le_refl _

theorem statusLe_trans {a b c : Status} (h₁ : statusLe a b) (h₂ : statusLe b c) :
    statusLe a c := Nat.le_trans h₁ h₂

theorem statusLe_dirtyStep (s : Status) : statusLe s (ParseStatus.dirtyStep s) := by
  cases s <;> decide

theorem statusLe_abortStep (s : Status) : statusLe s (ParseStatus.abortStep s) := by
  cases s <;> decide

theorem statusLe_dirtyUpd (s t : Status) : statusLe s (ParseStatus.dirtyUpd s t) := by
  unfold ParseStatus.dirtyUpd
  split
  · exact statusLe_dirtyStep s
  · exact statusLe_refl s

theorem aborted_of_statusLe_aborted {s : Status} (h : statusLe .aborted s) :
    s = .aborted := by
  cases s <;> first | rfl | exact absurd h (by decide)

theorem dirtyUpd_dirty (t : Status) : ParseStatus.dirtyUpd .dirty t = .dirty := by
  cases t <;> rfl

theorem arrStatusFold_dirty (rs : List SyncParseReturn) :
    arrStatusFold .dirty rs = .dirty := by
  induction rs with
  | nil => rfl
  | cons r rest ih => simpa [arrStatusFold, dirtyUpd_dirty] using ih

theorem arrStatusFold_valid_of_mem_dirty (rs : List SyncParseReturn)
    (h : ∃ r ∈ rs, r.status = .dirty) :
    arrStatusFold .valid rs = .dirty := by
  induction rs with
  | nil => simp at h
  | cons r rest ih =>
      by_cases hr : r.status = .dirty
      · simpa [arrStatusFold, ParseStatus.dirtyUpd, hr, ParseStatus.dirtyStep]
          using arrStatusFold_dirty rest
      · obtain ⟨x, hx, hxs⟩ := h
        rcases List.mem_cons.mp hx with rfl | hx'
        · exact absurd hxs hr
        · have : arrStatusFold .valid rest = .dirty := ih ⟨x, hx', hxs⟩
          simpa [arrStatusFold, ParseStatus.dirtyUpd, hr] using this

theorem mergeArrayGo_nil (s : Status) (acc : List Val) :
    ParseStatus.mergeArrayGo s acc [] = (s, ⟨s, .arr acc⟩) := rfl

theorem mergeArrayGo_cons (s : Status) (acc : List Val)
    (r : SyncParseReturn) (rest : List SyncParseReturn) :
    ParseStatus.mergeArrayGo s acc (r :: rest) =
      if r.status = .aborted then (s, INVALID)
      else ParseStatus.mergeArrayGo (ParseStatus.dirtyUpd s r.status)
        (acc ++ [r.value]) rest := rfl

theorem mergeArrayGo_fst_le (rs : List SyncParseReturn) :
    ∀ s acc, statusLe s (ParseStatus.mergeArrayGo s acc rs).1 := by
  induction rs with
  | nil => intro s acc; exact statusLe_refl s
  | cons r rest ih =>
      intro s acc
      rw [mergeArrayGo_cons]
      split
      · exact statusLe_refl s
      · exact statusLe_trans (statusLe_dirtyUpd s r.status) (ih _ _)

theorem mergeArrayGo_append_no_abort (l₁ : List SyncParseReturn)
    (h : ∀ r ∈ l₁, r.status ≠ .aborted) :
    ∀ (l₂ : List SyncParseReturn) s acc,
      ParseStatus.mergeArrayGo s acc (l₁ ++ l₂) =
        ParseStatus.mergeArrayGo (arrStatusFold s l₁)
          (acc ++ l₁.map (·.value)) l₂ := by
  induction l₁ with
  | nil => intro l₂ s acc; simp [arrStatusFold]
  | cons r rest ih =>
      intro l₂ s acc
      have hr : r.status ≠ .aborted := h r (List.mem_cons_self r rest)
      have hrest : ∀ x ∈ rest, x.status ≠ .aborted :=
        fun x hx => h x (List.mem_cons_of_mem r hx)
      rw [List.cons_append, mergeArrayGo_cons, if_neg hr,
        ih hrest l₂ (ParseStatus.dirtyUpd s r.status) (acc ++ [r.value])]
      simp [arrStatusFold]

theorem mergeArrayGo_no_abort (l : List SyncParseReturn)
    (h : ∀ r ∈ l, r.status ≠ .aborted) (s : Status) (acc : List Val) :
    ParseStatus.mergeArrayGo s acc l =
      (arrStatusFold s l,
       ⟨arrStatusFold s l, .arr (acc ++ l.map (·.value))⟩) := by
  have := mergeArrayGo_append_no_abort l h [] s acc
  simpa [mergeArrayGo_nil] using this

theorem mergeArrayGo_mem_aborted (rs : List SyncParseReturn) :
    ∀ s acc, (∃ r ∈ rs, r.status = .aborted) →
      (ParseStatus.mergeArrayGo s acc rs).2 = INVALID := by
  induction rs with
  | nil => intro s acc h; simp at h
  | cons r rest ih =>
      intro s acc h
      rw [mergeArrayGo_cons]
      by_cases hr : r.status = .aborted
      · rw [if_pos hr]
      · rw [if_neg hr]
        obtain ⟨x, hx, hxs⟩ := h
        rcases List.mem_cons.mp hx with rfl | hx'
        · exact absurd hxs hr
        · exact ih _ _ ⟨x, hx', hxs⟩

theorem pairStatusFold_dirty (ps : List ParseStatus.ObjectPair) :
    pairStatusFold .dirty ps = .dirty := by
  induction ps with
  | nil => rfl
  | cons p rest ih => simpa [pairStatusFold, dirtyUpd_dirty] using ih

theorem pairStatusFold_valid_of_mem_dirty (ps : List ParseStatus.ObjectPair)
    (h : ∃ p ∈ ps, p.key.status = .dirty ∨ p.value.status = .dirty) :
    pairStatusFold .valid ps = .dirty := by
  induction ps with
  | nil => simp at h
  | cons p rest ih =>
      by_cases hp : p.key.status = .dirty ∨ p.value.status = .dirty
      · have hstep :
            ParseStatus.dirtyUpd (ParseStatus.dirtyUpd Status.valid p.key.status)
              p.value.status = .dirty := by
          rcases hp with hk | hv
          · rw [hk]
            cases hval : p.value.status <;>
              simp [ParseStatus.dirtyUpd, ParseStatus.dirtyStep]
          · rw [hv]
            cases hk : p.key.status <;>
              simp [ParseStatus.dirtyUpd, ParseStatus.dirtyStep]
        simpa [pairStatusFold, hstep] using pairStatusFold_dirty rest
      · push_neg at hp
        obtain ⟨x, hx, hxs⟩ := h
        rcases List.mem_cons.mp hx with rfl | hx'
        · rcases hxs with hk | hv
          · exact absurd hk hp.1
          · exact absurd hv hp.2
        · have : pairStatusFold .valid rest = .dirty := ih ⟨x, hx', hxs⟩
          simpa [pairStatusFold, ParseStatus.dirtyUpd, hp.1, hp.2] using this

theorem mergeObjectSyncGo_nil (s : Status) (acc : List (String × Val)) :
    ParseStatus.mergeObjectSyncGo s acc [] = (s, ⟨s, .obj acc⟩) := rfl

theorem mergeObjectSyncGo_cons (s : Status) (acc : List (String × Val))
    (p : ParseStatus.ObjectPair) (rest : List ParseStatus.ObjectPair) :
    ParseStatus.mergeObjectSyncGo s acc (p :: rest) =
      if p.key.status = .aborted then (s, INVALID)
      else if p.value.status = .aborted then (s, INVALID)
      else ParseStatus.mergeObjectSyncGo
        (ParseStatus.dirtyUpd (ParseStatus.dirtyUpd s p.key.status) p.value.status)
        (if !p.key.value.isProtoKey && (!p.value.value.isUndef || p.alwaysSet)
         then ParseStatus.setKey acc p.key.value.toKeyString p.value.value
         else acc) rest := rfl

theorem mergeObjectSyncGo_fst_le (ps : List ParseStatus.ObjectPair) :
    ∀ s acc, statusLe s (ParseStatus.mergeObjectSyncGo s acc ps).1 := by
  induction ps with
  | nil => intro s acc; exact statusLe_refl s
  | cons p rest ih =>
      intro s acc
      rw [mergeObjectSyncGo_cons]
      split
      · exact statusLe_refl s
      · split
        · exact statusLe_refl s
        · exact statusLe_trans
            (statusLe_trans (statusLe_dirtyUpd s p.key.status)
              (statusLe_dirtyUpd _ p.value.status)) (ih _ _)

theorem mergeObjectSyncGo_append_no_abort (l₁ : List ParseStatus.ObjectPair)
    (h : ∀ p ∈ l₁, pairNotAborted p) :
    ∀ (l₂ : List ParseStatus.ObjectPair) s acc,
      ParseStatus.mergeObjectSyncGo s acc (l₁ ++ l₂) =
        ParseStatus.mergeObjectSyncGo (pairStatusFold s l₁)
          (objAssignFold acc l₁) l₂ := by
  induction l₁ with
  | nil => intro l₂ s acc; simp [pairStatusFold, objAssignFold]
  | cons p rest ih =>
      intro l₂ s acc
      have hp := h p (List.mem_cons_self p rest)
      have hrest : ∀ x ∈ rest, pairNotAborted x :=
        fun x hx => h x (List.mem_cons_of_mem p hx)
      rw [List.cons_append, mergeObjectSyncGo_cons, if_neg hp.1, if_neg hp.2,
        ih hrest l₂ _ _]
      simp [pairStatusFold, objAssignFold, includePair]

theorem mergeObjectSyncGo_no_abort (l : List ParseStatus.ObjectPair)
    (h : ∀ p ∈ l, pairNotAborted p) (s : Status) (acc : List (String × Val)) :
    ParseStatus.mergeObjectSyncGo s acc l =
      (pairStatusFold s l, ⟨pairStatusFold s l, .obj (objAssignFold acc l)⟩) := by
  have := mergeObjectSyncGo_append_no_abort l h [] s acc
  simpa [mergeObjectSyncGo_nil] using this

theorem objAssignFold_eq_filter (ps : List ParseStatus.ObjectPair) :
    ∀ acc, objAssignFold acc ps =
      (ps.filter contributesPair).foldl
        (fun m p => ParseStatus.insertKey m p.key.value.toKeyString p.value.value)
        acc := by
  induction ps with
  | nil => intro acc; rfl
  | cons p rest ih =>
      intro acc
      have hcons : ∀ a, objAssignFold a (p :: rest) =
          objAssignFold (if includePair p
            then ParseStatus.setKey a p.key.value.toKeyString p.value.value
            else a) rest := fun a => rfl
      by_cases hp : includePair p
      · by_cases hk : p.key.value.toKeyString = "__proto__"
        · rw [hcons, if_pos hp, ih, List.filter_cons]
          simp [ParseStatus.setKey, contributesPair, hp, hk]
        · rw [hcons, if_pos hp, ih, List.filter_cons]
          simp [ParseStatus.setKey, contributesPair, hp, hk]
      · rw [hcons, if_neg hp, ih, List.filter_cons]
        simp [contributesPair, hp]

theorem toKeyString_arr_proto :
    Val.toKeyString (.arr [.str "__proto__"]) = "__proto__" := by
  simp [Val.toKeyString, Val.isUndef]
  rfl

theorem mergeObjectAsyncGo_eq (ps : List ParseStatus.AsyncObjectPair) :
    ∀ acc, ParseStatus.mergeObjectAsyncGo acc ps =
      acc ++ ps.map (fun p => ⟨p.key.resolve, p.value.resolve, false⟩) := by
  induction ps with
  | nil => intro acc; simp [ParseStatus.mergeObjectAsyncGo]
  | cons p rest ih =>
      intro acc
      rw [show ParseStatus.mergeObjectAsyncGo acc (p :: rest) =
            ParseStatus.mergeObjectAsyncGo
              (acc ++ [⟨p.key.resolve, p.value.resolve, false⟩]) rest from rfl,
        ih]
      simp

theorem reverse_foldl_eq_resolveChainSpec (maps : List ErrorMapRef)
    (issue : IssueData) (data : Val) :
    maps.reverse.foldl (fun em m => m.fn issue ⟨data, em⟩) "" =
      resolveChainSpec maps issue data := by
  induction maps with
  | nil => rfl
  | cons m rest ih => rw [List.reverse_cons, List.foldl_append, ih]; rfl

theorem foldr_eq_resolveChainSpec (maps : List ErrorMapRef)
    (issue : IssueData) (data : Val) :
    List.foldr (fun m em => m.fn issue ⟨data, em⟩) "" maps =
      resolveChainSpec maps issue data := by
  induction maps with
  | nil => rfl
  | cons m rest ih => simp [resolveChainSpec, ih]

/-! ## The claims -/

/-- Claim C1: the `ParseStatus` value is monotone along the total order
`valid < dirty < aborted`: `dirty()`, `abort()`, `mergeArray`,
`mergeObjectSync` and `mergeObjectAsync` never move the status value to a
strictly smaller element; once `aborted` it never changes (all five
operations leave it at `aborted`); once `dirty`, `dirty()` keeps it `dirty`
and `abort()` moves it to `aborted`, so `aborted` is the only other value
ever reachable. -/
theorem status_transitions_monotone :
    (∀ s, statusLe s (ParseStatus.dirtyStep s))
    ∧ (∀ s, statusLe s (ParseStatus.abortStep s))
    ∧ (∀ s rs, statusLe s (ParseStatus.mergeArray s rs).1)
    ∧ (∀ s ps, statusLe s (ParseStatus.mergeObjectSync s ps).1)
    ∧ (∀ s ps, statusLe s (ParseStatus.mergeObjectAsync s ps).1)
    ∧ ParseStatus.dirtyStep .aborted = .aborted
    ∧ ParseStatus.abortStep .aborted = .aborted
    ∧ (∀ rs, (ParseStatus.mergeArray .aborted rs).1 = .aborted)
    ∧ (∀ ps, (ParseStatus.mergeObjectSync .aborted ps).1 = .aborted)
    ∧ (∀ ps, (ParseStatus.mergeObjectAsync .aborted ps).1 = .aborted)
    ∧ ParseStatus.dirtyStep .dirty = .dirty
    ∧ ParseStatus.abortStep .dirty = .aborted := by
  refine ⟨statusLe_dirtyStep, statusLe_abortStep,
    fun s rs => mergeArrayGo_fst_le rs s [],
    fun s ps => mergeObjectSyncGo_fst_le ps s [],
    fun s ps => mergeObjectSyncGo_fst_le _ s [],
    rfl, rfl, ?_, ?_, ?_, rfl, rfl⟩
  · exact fun rs => aborted_of_statusLe_aborted (mergeArrayGo_fst_le rs _ [])
  · exact fun ps => aborted_of_statusLe_aborted (mergeObjectSyncGo_fst_le ps _ [])
  · exact fun ps => aborted_of_statusLe_aborted (mergeObjectSyncGo_fst_le _ _ [])

/-- Claim C2: for every status and every sequence of element results, if at
least one element result is `aborted`, `mergeArray` returns the `INVALID`
result, regardless of the other elements. -/
theorem mergeArray_any_aborted_invalid (s : Status)
    (rs : List SyncParseReturn) (h : ∃ r ∈ rs, r.status = .aborted) :
    (ParseStatus.mergeArray s rs).2 = INVALID :=
  mergeArrayGo_mem_aborted rs s [] h

theorem mergeArray_any_aborted_invalid_witness :
    (∃ r ∈ [OK (.num 7), INVALID, DIRTY (.str "x")], r.status = .aborted)
    ∧ (ParseStatus.mergeArray .valid [OK (.num 7), INVALID, DIRTY (.str "x")]).2
        = INVALID :=
  ⟨⟨INVALID, by simp [INVALID, OK, DIRTY], rfl⟩,
   mergeArray_any_aborted_invalid .valid _
     ⟨INVALID, by simp [INVALID, OK, DIRTY], rfl⟩⟩

/-- Claim C3: for every not-yet-aborted status (in particular the fresh
`valid` one a `ParseStatus` is created with) and every sequence of element
results with no `aborted` element but at least one `dirty` one, `mergeArray`
returns a `dirty`-status result whose value is every element's value in the
original order — dirty values are kept, not dropped. -/
theorem mergeArray_no_abort_dirty_result (s : Status)
    (hs : s ≠ .aborted) (rs : List SyncParseReturn)
    (h₁ : ∀ r ∈ rs, r.status ≠ .aborted) (h₂ : ∃ r ∈ rs, r.status = .dirty) :
    ParseStatus.mergeArray s rs =
      (.dirty, ⟨.dirty, .arr (rs.map (·.value))⟩) := by
  have hfold : arrStatusFold s rs = .dirty := by
    cases s with
    | valid => exact arrStatusFold_valid_of_mem_dirty rs h₂
    | dirty => exact arrStatusFold_dirty rs
    | aborted => exact absurd rfl hs
  have := mergeArrayGo_no_abort rs h₁ s []
  rw [ParseStatus.mergeArray, this, hfold]
  simp

theorem mergeArray_no_abort_dirty_result_witness :
    (Status.valid ≠ .aborted)
    ∧ (∀ r ∈ [OK (.num 1), DIRTY (.str "x"), OK (.num 3)], r.status ≠ .aborted)
    ∧ (∃ r ∈ [OK (.num 1), DIRTY (.str "x"), OK (.num 3)], r.status = .dirty)
    ∧ ParseStatus.mergeArray .valid [OK (.num 1), DIRTY (.str "x"), OK (.num 3)]
        = (.dirty, ⟨.dirty, .arr [.num 1, .str "x", .num 3]⟩) :=
  ⟨by decide,
   by simp [OK, DIRTY],
   ⟨DIRTY (.str "x"), by simp [OK, DIRTY], rfl⟩,
   mergeArray_no_abort_dirty_result .valid (by decide) _ (by simp [OK, DIRTY])
     ⟨DIRTY (.str "x"), by simp [OK, DIRTY], rfl⟩⟩

/-- Claim C10: status mutations are not rolled back when a merge fails —
starting from a `valid` status, if a `dirty` element (pair) precedes the
first `aborted` element (pair), `mergeArray` (`mergeObjectSync`) returns
`INVALID` but leaves the status value at `dirty`. -/
theorem merge_no_status_rollback :
    (∀ (l₁ l₂ : List SyncParseReturn) (r : SyncParseReturn),
      (∀ x ∈ l₁, x.status ≠ .aborted) → (∃ x ∈ l₁, x.status = .dirty) →
      r.status = .aborted →
      ParseStatus.mergeArray .valid (l₁ ++ r :: l₂) = (.dirty, INVALID))
    ∧ (∀ (p₁ p₂ : List ParseStatus.ObjectPair) (q : ParseStatus.ObjectPair),
      (∀ x ∈ p₁, pairNotAborted x) →
      (∃ x ∈ p₁, x.key.status = .dirty ∨ x.value.status = .dirty) →
      (q.key.status = .aborted ∨ q.value.status = .aborted) →
      ParseStatus.mergeObjectSync .valid (p₁ ++ q :: p₂) = (.dirty, INVALID)) := by
  constructor
  · intro l₁ l₂ r h₁ h₂ hr
    rw [ParseStatus.mergeArray,
      mergeArrayGo_append_no_abort l₁ h₁ (r :: l₂) .valid [],
      mergeArrayGo_cons, if_pos hr, arrStatusFold_valid_of_mem_dirty l₁ h₂]
  · intro p₁ p₂ q h₁ h₂ hq
    rw [ParseStatus.mergeObjectSync,
      mergeObjectSyncGo_append_no_abort p₁ h₁ (q :: p₂) .valid [],
      mergeObjectSyncGo_cons, pairStatusFold_valid_of_mem_dirty p₁ h₂]
    rcases hq with hk | hv
    · rw [if_pos hk]
    · by_cases hk : q.key.status = .aborted
      · rw [if_pos hk]
      · rw [if_neg hk, if_pos hv]

theorem merge_no_status_rollback_witness :
    ParseStatus.mergeArray .valid [DIRTY (.num 1), INVALID] = (.dirty, INVALID)
    ∧ ParseStatus.mergeObjectSync .valid
        [⟨OK (.str "a"), DIRTY (.num 1), false⟩, ⟨INVALID, OK (.num 2), false⟩]
        = (.dirty, INVALID) :=
  ⟨merge_no_status_rollback.1 [DIRTY (.num 1)] [] INVALID
     (by simp [DIRTY]) ⟨DIRTY (.num 1), by simp, rfl⟩ rfl,
   merge_no_status_rollback.2 [⟨OK (.str "a"), DIRTY (.num 1), false⟩] []
     ⟨INVALID, OK (.num 2), false⟩
     (by simp [pairNotAborted, OK, DIRTY])
     (⟨⟨OK (.str "a"), DIRTY (.num 1), false⟩, by simp, Or.inr rfl⟩)
     (Or.inl rfl)⟩

/-- Claim C4 counterexample: the pair whose key result is `OK(["__proto__"])`
— an array, so not strictly equal to the literal string `"__proto__"` — and
whose value `OK(1)` is defined satisfies the claim's inclusion condition
(witnessed by `includePair` evaluating to `true`), yet `mergeObjectSync` on
that single pair returns an empty output mapping: the assignment's coerced
property key is `"__proto__"` and the inherited setter swallows it, so the
pair is not included as the claim requires. -/
theorem mergeObjectSync_array_proto_key_counterexample :
    (Val.arr [.str "__proto__"]).isProtoKey = false
    ∧ includePair ⟨OK (.arr [.str "__proto__"]), OK (.num 1), false⟩ = true
    ∧ ParseStatus.mergeObjectSync .valid
        [⟨OK (.arr [.str "__proto__"]), OK (.num 1), false⟩]
        = (.valid, ⟨.valid, .obj []⟩) := by
  refine ⟨rfl, rfl, ?_⟩
  simp [ParseStatus.mergeObjectSync, ParseStatus.mergeObjectSyncGo,
    ParseStatus.setKey, ParseStatus.dirtyUpd, ParseStatus.dirtyStep,
    Val.isProtoKey, Val.isUndef, toKeyString_arr_proto, OK]

/-- Claim C4 (amended): for pairs with no aborted key or value result,
`mergeObjectSync` includes a pair in the output own-property mapping
exactly when the key's coerced property key is not `"__proto__"` and the
value is defined or the `alwaysSet` flag is set (a key that is the literal
string `"__proto__"` is rejected by the source's explicit guard, and a key
that merely coerces to `"__proto__"`, such as the array `["__proto__"]`,
passes the guard but its assignment is swallowed by the inherited
`__proto__` setter and creates no own property); kept pairs are assigned in
the original order, while the final status is the dirty-marking folded over
the statuses of every pair — dropped pairs leave the output untouched and
influence the status only through their statuses, exactly like kept ones,
and no issue is produced (the merge returns only a status and a value). -/
theorem mergeObjectSync_pair_inclusion (s : Status)
    (ps : List ParseStatus.ObjectPair) (h : ∀ p ∈ ps, pairNotAborted p) :
    ParseStatus.mergeObjectSync s ps =
      (pairStatusFold s ps,
       ⟨pairStatusFold s ps,
        .obj ((ps.filter contributesPair).foldl
          (fun m p => ParseStatus.insertKey m p.key.value.toKeyString p.value.value)
          [])⟩) := by
  rw [ParseStatus.mergeObjectSync, mergeObjectSyncGo_no_abort ps h s [],
    objAssignFold_eq_filter ps []]

theorem mergeObjectSync_pair_inclusion_witness :
    (∀ p ∈ [(⟨OK (.str "__proto__"), OK (.num 1), false⟩ : ParseStatus.ObjectPair),
            ⟨OK (.arr [.str "__proto__"]), OK (.num 5), false⟩,
            ⟨OK (.str "a"), OK .undef, false⟩,
            ⟨OK (.str "b"), OK .undef, true⟩,
            ⟨OK (.str "c"), DIRTY (.num 2), false⟩], pairNotAborted p)
    ∧ ParseStatus.mergeObjectSync .valid
        [⟨OK (.str "__proto__"), OK (.num 1), false⟩,
         ⟨OK (.arr [.str "__proto__"]), OK (.num 5), false⟩,
         ⟨OK (.str "a"), OK .undef, false⟩,
         ⟨OK (.str "b"), OK .undef, true⟩,
         ⟨OK (.str "c"), DIRTY (.num 2), false⟩] =
        (pairStatusFold .valid
          [⟨OK (.str "__proto__"), OK (.num 1), false⟩,
           ⟨OK (.arr [.str "__proto__"]), OK (.num 5), false⟩,
           ⟨OK (.str "a"), OK .undef, false⟩,
           ⟨OK (.str "b"), OK .undef, true⟩,
           ⟨OK (.str "c"), DIRTY (.num 2), false⟩],
         ⟨pairStatusFold .valid
            [⟨OK (.str "__proto__"), OK (.num 1), false⟩,
             ⟨OK (.arr [.str "__proto__"]), OK (.num 5), false⟩,
             ⟨OK (.str "a"), OK .undef, false⟩,
             ⟨OK (.str "b"), OK .undef, true⟩,
             ⟨OK (.str "c"), DIRTY (.num 2), false⟩],
          .obj (([(⟨OK (.str "__proto__"), OK (.num 1), false⟩ : ParseStatus.ObjectPair),
                  ⟨OK (.arr [.str "__proto__"]), OK (.num 5), false⟩,
                  ⟨OK (.str "a"), OK .undef, false⟩,
                  ⟨OK (.str "b"), OK .undef, true⟩,
                  ⟨OK (.str "c"), DIRTY (.num 2), false⟩].filter contributesPair).foldl
            (fun m p => ParseStatus.insertKey m p.key.value.toKeyString p.value.value)
            [])⟩)
    ∧ ParseStatus.mergeObjectSync .valid
        [⟨OK (.str "__proto__"), OK (.num 1), false⟩,
         ⟨OK (.arr [.str "__proto__"]), OK (.num 5), false⟩,
         ⟨OK (.str "a"), OK .undef, false⟩,
         ⟨OK (.str "b"), OK .undef, true⟩,
         ⟨OK (.str "c"), DIRTY (.num 2), false⟩] =
        (.dirty, ⟨.dirty, .obj [("b", .undef), ("c", .num 2)]⟩) :=
  ⟨by simp [pairNotAborted, OK, DIRTY],
   mergeObjectSync_pair_inclusion .valid _ (by simp [pairNotAborted, OK, DIRTY]),
   by simp [ParseStatus.mergeObjectSync, ParseStatus.mergeObjectSyncGo,
     ParseStatus.setKey, ParseStatus.insertKey, ParseStatus.dirtyUpd,
     ParseStatus.dirtyStep, Val.isProtoKey, Val.isUndef, Val.toKeyString,
     toKeyString_arr_proto, OK, DIRTY, INVALID]⟩

/-- Claim C9 counterexample: `isDirty` applied to an `ok` result is `false`
at runtime — `isDirty(OK(0))` evaluates the comparison
`"valid" === "dirty"`. -/
theorem isDirty_ok_counterexample :
    isDirty (.sync (OK (.num 0))) = false := rfl

/-- Claim C9 (amended): `isDirty` is true exactly for results whose status
is `"dirty"`: it holds of every `dirty` result and is false for every `ok`
result and for `invalid()`; only the static type annotation
(`x is OK | DIRTY`) reads "did not abort". -/
theorem isDirty_exactly_dirty (v : Val) :
    isDirty (.sync (DIRTY v)) = true
    ∧ isDirty (.sync (OK v)) = false
    ∧ isDirty (.sync INVALID) = false
    ∧ isAborted (.sync INVALID) = true
    ∧ isValid (.sync (OK v)) = true :=
  ⟨rfl, rfl, rfl, rfl, rfl⟩

/-- Claim C8: `mergeObjectAsync` awaits each pair's key and value in the
given order and resolves to exactly what `mergeObjectSync` returns on the
resolved pairs (with no `alwaysSet` flag), for every status — the two entry
points share one source of truth for the merge semantics. -/
theorem mergeObjectAsync_refines_mergeObjectSync (s : Status)
    (pairs : List ParseStatus.AsyncObjectPair) :
    ParseStatus.mergeObjectAsync s pairs =
      ParseStatus.mergeObjectSync s
        (pairs.map fun p => ⟨p.key.resolve, p.value.resolve, false⟩) := by
  rw [ParseStatus.mergeObjectAsync, mergeObjectAsyncGo_eq pairs []]
  simp

/-- Claim C5: when `issueData` carries no explicit message, `makeIssue`
consults the present error maps in reverse of the supplied order, each
receiving the previous invocation's message as `defaultError`, so the
resulting message is the one produced by the last-invoked — i.e. the first
present — map: exactly `resolveChainSpec` of the presence-filtered list. -/
theorem makeIssue_reverse_chain_resolution (data : Val) (path : List PathComp)
    (errorMaps : List (Option ErrorMapRef)) (issueData : IssueData)
    (h : issueData.message = none) :
    makeIssue data path errorMaps issueData =
      { code := issueData.code,
        path := path ++ issueData.path.getD [],
        message := resolveChainSpec (errorMaps.filterMap id)
          { issueData with path := some (path ++ issueData.path.getD []) }
          data } := by
  simp [makeIssue, h, foldr_eq_resolveChainSpec]

theorem makeIssue_reverse_chain_resolution_witness :
    (⟨"custom", none, none⟩ : IssueData).message = none
    ∧ makeIssue .undef []
        [some ⟨1, fun _ _ => "override"⟩,
         some ⟨2, fun _ ctx => "b(" ++ ctx.defaultError ++ ")"⟩,
         some ⟨3, fun _ ctx => "c(" ++ ctx.defaultError ++ ")"⟩]
        ⟨"custom", none, none⟩ =
      { code := "custom", path := [],
        message := resolveChainSpec
          [⟨1, fun _ _ => "override"⟩,
           ⟨2, fun _ ctx => "b(" ++ ctx.defaultError ++ ")"⟩,
           ⟨3, fun _ ctx => "c(" ++ ctx.defaultError ++ ")"⟩]
          ⟨"custom", some [], none⟩ .undef }
    ∧ (makeIssue .undef []
        [some ⟨1, fun _ _ => "override"⟩,
         some ⟨2, fun _ ctx => "b(" ++ ctx.defaultError ++ ")"⟩,
         some ⟨3, fun _ ctx => "c(" ++ ctx.defaultError ++ ")"⟩]
        ⟨"custom", none, none⟩).message = "override" :=
  ⟨rfl,
   makeIssue_reverse_chain_resolution .undef [] _ ⟨"custom", none, none⟩ rfl,
   rfl⟩

/-- Claim C6: when `issueData` carries an explicit message, `makeIssue`
returns that message verbatim, and the error maps are never invoked — the
result does not depend on them at all. -/
theorem makeIssue_explicit_message_shortcircuit (data : Val)
    (path : List PathComp) (errorMaps : List (Option ErrorMapRef))
    (issueData : IssueData) (m : String) (h : issueData.message = some m) :
    makeIssue data path errorMaps issueData =
      { code := issueData.code, path := path ++ issueData.path.getD [],
        message := m }
    ∧ ∀ errorMaps₂, makeIssue data path errorMaps issueData =
        makeIssue data path errorMaps₂ issueData := by
  constructor
  · simp [makeIssue, h]
  · intro errorMaps₂
    simp [makeIssue, h]

theorem makeIssue_explicit_message_shortcircuit_witness :
    (⟨"custom", none, some "explicit"⟩ : IssueData).message = some "explicit"
    ∧ makeIssue .undef []
        [some ⟨2, fun _ ctx => "b(" ++ ctx.defaultError ++ ")"⟩]
        ⟨"custom", none, some "explicit"⟩ =
      { code := "custom", path := [], message := "explicit" }
    ∧ makeIssue .undef []
        [some ⟨2, fun _ ctx => "b(" ++ ctx.defaultError ++ ")"⟩]
        ⟨"custom", none, some "explicit"⟩ =
      makeIssue .undef [] [] ⟨"custom", none, some "explicit"⟩ :=
  ⟨rfl,
   (makeIssue_explicit_message_shortcircuit .undef [] _ _ "explicit" rfl).1,
   (makeIssue_explicit_message_shortcircuit .undef [] _ _ "explicit" rfl).2 []⟩

/-- Claim C7: `addIssueToContext` appends to `ctx.common.issues` the issue
`makeIssue` builds from the presence-filtered priority list
`[contextual map, schema map, global override map, global default map]`,
where the default map entry is omitted exactly when the override map is
(reference-)equal to the default map, so the same function is never listed
— hence never invoked — twice. -/
theorem addIssueToContext_priority_chain (overrideMap : ErrorMapRef)
    (ctx : ParseContext) (issueData : IssueData) :
    addIssueToContext overrideMap ctx issueData =
      { ctx with issues := ctx.issues ++
          [makeIssue ctx.data ctx.path
            ((priorityMaps overrideMap ctx).map some) issueData] }
    ∧ priorityMaps overrideMap ctx =
        ([ctx.contextualErrorMap, ctx.schemaErrorMap].filterMap id)
          ++ [overrideMap]
          ++ (if overrideMap.id = defaultErrorMap.id then []
              else [defaultErrorMap]) := by
  refine ⟨rfl, ?_⟩
  obtain ⟨issues, cmap, casync, cpath, smap, cdata⟩ := ctx
  by_cases hid : overrideMap.id = defaultErrorMap.id <;>
    cases cmap <;> cases smap <;> simp [priorityMaps, hid]

end ZodParseUtil
